import Mathlib

/-!
Verification development for the ORB (Opening Range Breakout) trading engine
in `openalgo/strategies/scripts/orb_openalgo_stocks.py`.

Prices and ratios are modelled as exact rationals (`ℚ`); Python's `round`
(banker's rounding, round-half-to-even) is modelled by `pyround`, and
`round(x, k)` by scaling.  Integer share quantities are `ℤ`.  Collaborator
data (bar history, quotes) is injected as explicit values.
-/

namespace Orb

/-- Python's built-in `round` to an integer: round half to even. -/
def pyround (x : ℚ) : ℤ :=
  if x - ⌊x⌋ < 1/2 then ⌊x⌋
  else if 1/2 < x - ⌊x⌋ then ⌊x⌋ + 1
  else if ⌊x⌋ % 2 = 0 then ⌊x⌋ else ⌊x⌋ + 1

/-- Python's `round(x, 2)`. -/
def pyround2 (x : ℚ) : ℚ := (pyround (100 * x) : ℚ) / 100

/-- Python's `round(x, 4)`. -/
def round4 (x : ℚ) : ℚ := (pyround (10000 * x) : ℚ) / 10000

theorem floor_le_pyround (x : ℚ) : ⌊x⌋ ≤ pyround x := by
  unfold pyround; split_ifs <;> omega

theorem pyround_le_ceil (x : ℚ) : pyround x ≤ ⌈x⌉ := by
  unfold pyround
  split_ifs with h1 h2 h3
  · exact Int.floor_le_ceil x
  · have : (⌊x⌋ : ℚ) < x := by linarith
    have := Int.lt_ceil.mpr this
    omega
  · exact Int.floor_le_ceil x
  · have : (⌊x⌋ : ℚ) < x := by linarith
    have := Int.lt_ceil.mpr this
    omega

theorem pyround_intCast (n : ℤ) : pyround (n : ℚ) = n := by
  unfold pyround
  simp [Int.floor_intCast]

theorem pyround_ge_of_half_lt (k : ℤ) (x : ℚ) (h : (k : ℚ) + 1/2 < x) :
    k + 1 ≤ pyround x := by
  have hkf : k ≤ ⌊x⌋ := Int.le_floor.mpr (by linarith)
  unfold pyround
  split_ifs with h1 h2 h3
  · have hfx : ((⌊x⌋ : ℚ)) ≤ x := Int.floor_le x
    have hklt : (k : ℚ) < (⌊x⌋ : ℚ) := by linarith
    have := Int.cast_lt.mp hklt
    omega
  · omega
  · have hx : x - ⌊x⌋ = 1/2 := le_antisymm (not_lt.mp h2) (not_lt.mp h1)
    have hklt : (k : ℚ) < (⌊x⌋ : ℚ) := by linarith
    have := Int.cast_lt.mp hklt
    omega
  · omega

theorem pyround2_intCast (n : ℤ) : pyround2 (n : ℚ) = (n : ℚ) := by
  unfold pyround2
  have h : (100 : ℚ) * (n : ℚ) = ((100 * n : ℤ) : ℚ) := by push_cast; ring
  rw [h, pyround_intCast]
  push_cast
  ring

/-- `tick_adjust` from the source: tick size 1 below 500, else 3; round the
price to the nearest tick (then Python applies a final `round(·, 2)`). -/
def tick_adjust (price : ℚ) : ℚ :=
  let tick : ℚ := if price < 500 then 1 else 3
  pyround2 ((pyround (price / tick) : ℚ) * tick)

-- --- Configuration constants from the source ---

def RISK_PER_TRADE : ℚ := 1/100
def ATR_PERIOD : ℕ := 14
def MIN_VOLUME_THRESHOLD : ℚ := 5000
def TARGET_MULTIPLIER : ℚ := 10
def LIMIT_BUFFER : ℚ := 1/1000
def RETRY_BUFFER : ℚ := 1/500

/-- The NSE equity universe, in the order the source lists it. -/
def SYMBOLS : List String :=
["ADANIENT","ADANIPORTS","APOLLOHOSP","ASIANPAINT","AXISBANK",
"BAJAJ-AUTO","BAJFINANCE","BAJAJFINSV","BPCL","BHARTIARTL",
"BRITANNIA","CIPLA","COALINDIA","DIVISLAB","DRREDDY","EICHERMOT",
"GRASIM","HCLTECH","HDFCBANK","HDFCLIFE","HEROMOTOCO","HINDALCO",
"HINDUNILVR","ICICIBANK","ITC","INDUSINDBK","INFY","JSWSTEEL",
"KOTAKBANK","LT","M&M","MARUTI","NTPC","ONGC","POWERGRID",
"RELIANCE","SBILIFE","SBIN","SUNPHARMA","TCS","TATACONSUM",
"TATAMOTORS","TATASTEEL","TECHM","TITAN","ULTRACEMCO",
"UPL","WIPRO"]

/-- `PROGRESSIVE_THRESHOLDS = [round(x/100, 4) for x in range(40, 1001, 20)]`
(`range(40, 1001, 20)` has 49 elements: 40, 60, …, 1000). -/
def PROGRESSIVE_THRESHOLDS : List ℚ :=
  (List.range 49).map (fun i : ℕ => round4 ((40 + 20 * (i : ℚ)) / 100))

/-- `PROGRESSIVE_LOCKS = {thr: round(max(0.0, thr - 0.002), 4) for thr in
PROGRESSIVE_THRESHOLDS}`, listed as the (threshold, locked) pairs in
increasing threshold order, i.e. `sorted(PROGRESSIVE_LOCKS.items())`. -/
def PROGRESSIVE_LOCKS : List (ℚ × ℚ) :=
  PROGRESSIVE_THRESHOLDS.map (fun thr => (thr, round4 (max 0 (thr - 1/500))))

/-- `limit_price_for_side`: limit price with a buffer on top of LTP. -/
def limit_price_for_side (ltp : ℚ) (side : String) (retry : Bool) : ℚ :=
  let buf := if retry then RETRY_BUFFER else LIMIT_BUFFER
  if side = "BUY" then pyround2 (ltp * (1 + buf))
  else pyround2 (ltp * (1 - buf))

-- --- Data model ---

/-- One OHLCV bar (`open` is a Lean keyword, hence `open_`). -/
structure Bar where
  open_ : ℚ
  high : ℚ
  low : ℚ
  close : ℚ
  volume : ℚ

/-- The dict returned by `compute_opening_range`
(`{orb_high, orb_low, range, atr, volatility}`; the `opening_df` entry is
the input bar subset itself and is not duplicated here). -/
structure OrbResult where
  orb_high : ℚ
  orb_low : ℚ
  range : ℚ
  atr : ℚ
  volatility : ℚ

/-- One side's entry levels as returned by `determine_entry_levels`. -/
structure SideLevels where
  entry : ℚ
  stop : ℚ
  target : ℚ
  risk_per_share : ℚ

/-- The `{"long": …, "short": …}` dict of `determine_entry_levels`. -/
structure Levels where
  long : SideLevels
  short : SideLevels

/-- The `ActiveTrade` dataclass (bookkeeping fields `symbol`,
`executed_order` and the `open` flag are orchestration-only and omitted). -/
structure ActiveTrade where
  side : String
  entry_price : ℚ
  stop_price : ℚ
  target_price : ℚ
  qty : ℤ

/-- The part of a broker quote the entry path reads: `data.volume`
(Python's `.get('volume', 0)` default is applied by the caller model). -/
structure Quote where
  volume : ℚ

-- --- Core strategy functions ---

/-- `compute_opening_range`, applied to the already-filtered opening-window
bar subset (the pandas time filtering and the `ta.atr` call are collaborator
work; the latest ATR value is injected as `atr_val`).  Returns `none` for an
empty subset (`orb_df.empty`). -/
def compute_opening_range (orb_df : List Bar) (atr_val : ℚ) : Option OrbResult :=
  match orb_df with
  | [] => none
  | b :: bs =>
    let orb_high := bs.foldl (fun a c => max a c.high) b.high
    let orb_low := bs.foldl (fun a c => min a c.low) b.low
    let rng := orb_high - orb_low
    let last_open := ((b :: bs).getLast (List.cons_ne_nil b bs)).open_
    let max_bar_range := bs.foldl (fun a c => max a (c.high - c.low)) (b.high - b.low)
    let volatility := if last_open ≠ 0 then max_bar_range / last_open else 0
    some ⟨orb_high, orb_low, rng, atr_val, volatility⟩

/-- `determine_entry_levels` (the `symbol` argument is unused in the source
and dropped).  All four outputs per side are `round(·, 2)`-ed. -/
def determine_entry_levels (orb_info : OrbResult) : Levels :=
  let atr := orb_info.atr
  let rng := orb_info.range
  let vol := orb_info.volatility
  let entry_buffer := atr * (if vol > 1/200 then (5 : ℚ)/100 else 8/100)
  let stop_buffer := max (atr * (30/100)) (rng * (20/100))
  let long_entry := orb_info.orb_high + entry_buffer
  let long_stop := orb_info.orb_low - stop_buffer
  let risk_per_share_long := long_entry - long_stop
  let long_target := long_entry + risk_per_share_long * TARGET_MULTIPLIER
  let short_entry := orb_info.orb_low - entry_buffer
  let short_stop := orb_info.orb_high + stop_buffer
  let risk_per_share_short := short_stop - short_entry
  let short_target := short_entry - risk_per_share_short * TARGET_MULTIPLIER
  { long := ⟨pyround2 long_entry, pyround2 long_stop,
             pyround2 long_target, pyround2 risk_per_share_long⟩
    short := ⟨pyround2 short_entry, pyround2 short_stop,
              pyround2 short_target, pyround2 risk_per_share_short⟩ }

/-- `compute_position_size` with the module-level `TOTAL_CAPITAL` passed
explicitly (it is read from the environment at startup). -/
def compute_position_size (total_capital entry_price stop_price : ℚ) : ℤ :=
  let risk_amount := total_capital * RISK_PER_TRADE
  let risk_per_share := |entry_price - stop_price|
  if risk_per_share ≤ 0 then 0
  else max 0 ⌊risk_amount / risk_per_share⌋

-- --- Symbol scoring and selection ---

/-- The composite score expression of `select_stocks_from_universe`:
`(price_momentum * 0.5) + (volatility * 0.3) + (vol_score * 0.2)`. -/
def composite_score (price_momentum volatility vol_score : ℚ) : ℚ :=
  price_momentum * (50/100) + volatility * (30/100) + vol_score * (20/100)

/-- The per-symbol scoring step of `select_stocks_from_universe`, applied to
the symbol's opening-window bar subset; `none` when the subset is empty
(`orb_df.empty` → `continue`). -/
def symbol_score (orb_df : List Bar) : Option ℚ :=
  match orb_df with
  | [] => none
  | b :: bs =>
    let price_momentum :=
      (((b :: bs).getLast (List.cons_ne_nil b bs)).close - b.open_) / b.open_
    let volatility :=
      (bs.foldl (fun a c => max a c.high) b.high
        - bs.foldl (fun a c => min a c.low) b.low) / b.open_
    let vol := (b :: bs).foldl (fun a c => a + c.volume) 0
    let vol_score := min (vol / MIN_VOLUME_THRESHOLD) 3
    some (composite_score price_momentum volatility vol_score)

/-- One insertion step of a stable descending sort by score: the element is
placed before the first entry whose score it ties or beats, so equal scores
keep their original relative order — the behaviour of Python's stable
`sorted(scores, key=lambda x: x[1], reverse=True)`. -/
def insert_desc (x : String × ℚ) : List (String × ℚ) → List (String × ℚ)
  | [] => [x]
  | y :: ys => if y.2 ≤ x.2 then x :: y :: ys else y :: insert_desc x ys

/-- Stable descending sort by score, modelling
`sorted(scores, key=lambda x: x[1], reverse=True)`. -/
def pySortDesc : List (String × ℚ) → List (String × ℚ)
  | [] => []
  | x :: xs => insert_desc x (pySortDesc xs)

/-- `select_stocks_from_universe` with each symbol's opening-window bar
subset injected via `data`; returns the top-2 symbols. -/
def select_stocks_from_universe (data : String → List Bar) : List String :=
  let scores := SYMBOLS.filterMap
    (fun sym => (symbol_score (data sym)).map (fun sc => (sym, sc)))
  let scores_sorted := pySortDesc scores
  (scores_sorted.take 2).map Prod.fst

-- --- Trade lifecycle ---

/-- `update_stop_trade`: the new stop is tick-size adjusted before being
stored on the trade (the broker modify call is a no-op placeholder). -/
def update_stop_trade (trade : ActiveTrade) (new_stop : ℚ) : ActiveTrade :=
  { trade with stop_price := tick_adjust new_stop }

/-- The body of `check_progressive_lock`'s LONG loop for one
(threshold, locked) pair: if the profit reached the threshold and the
candidate stop `entry * (1 + locked)` strictly beats the current stop,
the stop is updated. -/
def lock_step_long (entry current_profit : ℚ) (trade : ActiveTrade)
    (pair : ℚ × ℚ) : ActiveTrade :=
  if current_profit ≥ pair.1 then
    if entry * (1 + pair.2) > trade.stop_price then
      update_stop_trade trade (entry * (1 + pair.2))
    else trade
  else trade

/-- The body of `check_progressive_lock`'s SHORT loop for one pair:
candidate stop `entry * (1 - locked)`, updated when strictly below the
current stop. -/
def lock_step_short (entry current_profit : ℚ) (trade : ActiveTrade)
    (pair : ℚ × ℚ) : ActiveTrade :=
  if current_profit ≥ pair.1 then
    if entry * (1 - pair.2) < trade.stop_price then
      update_stop_trade trade (entry * (1 - pair.2))
    else trade
  else trade

/-- `check_progressive_lock`: walk all (threshold, locked) pairs in
increasing threshold order, ratcheting the stop. -/
def check_progressive_lock (trade : ActiveTrade) (current_price : ℚ) :
    ActiveTrade :=
  let entry := trade.entry_price
  if trade.side = "LONG" then
    let current_profit := if entry > 0 then (current_price - entry) / entry else 0
    PROGRESSIVE_LOCKS.foldl (lock_step_long entry current_profit) trade
  else
    let current_profit := if entry > 0 then (entry - current_price) / entry else 0
    PROGRESSIVE_LOCKS.foldl (lock_step_short entry current_profit) trade

/-- The per-trade decision of `monitor_positions_job` for one LTP
observation: exit on target or stop, otherwise apply progressive locking.
The first component is the exit reason (`none` = trade stays open). -/
def monitor_step (trade : ActiveTrade) (ltp : ℚ) :
    Option String × ActiveTrade :=
  if trade.side = "LONG" then
    if ltp ≥ trade.target_price then (some "TARGET_HIT", trade)
    else if ltp ≤ trade.stop_price then (some "STOP_HIT", trade)
    else (none, check_progressive_lock trade ltp)
  else
    if ltp ≤ trade.target_price then (some "TARGET_HIT", trade)
    else if ltp ≥ trade.stop_price then (some "STOP_HIT", trade)
    else (none, check_progressive_lock trade ltp)

-- --- Entry placement ---

/-- One side's branch of the entry loop in
`attempt_place_orb_trade_for_symbol`: ordering-invariant gate, tick
adjustment, position sizing, volume gate, then the trade object that is
recorded after the limit order is sent.  Each failed gate is a `continue`
in the source, i.e. `none` here.  (The quote's LTP only shapes the limit
price of the emitted order, not the recorded trade, and is omitted.) -/
def try_side (total_capital : ℚ) (levels : Levels) (q : Quote)
    (side : String) : Option ActiveTrade :=
  if side = "LONG" then
    if levels.long.stop < levels.long.entry
        ∧ levels.long.entry < levels.long.target then
      if compute_position_size total_capital (tick_adjust levels.long.entry)
          (tick_adjust levels.long.stop) ≤ 0 then none
      else if q.volume ≠ 0 ∧ q.volume < MIN_VOLUME_THRESHOLD then none
      else some ⟨"LONG", tick_adjust levels.long.entry,
        tick_adjust levels.long.stop, tick_adjust levels.long.target,
        compute_position_size total_capital (tick_adjust levels.long.entry)
          (tick_adjust levels.long.stop)⟩
    else none
  else
    if levels.short.target < levels.short.entry
        ∧ levels.short.entry < levels.short.stop then
      if compute_position_size total_capital (tick_adjust levels.short.entry)
          (tick_adjust levels.short.stop) ≤ 0 then none
      else if q.volume ≠ 0 ∧ q.volume < MIN_VOLUME_THRESHOLD then none
      else some ⟨"SHORT", tick_adjust levels.short.entry,
        tick_adjust levels.short.stop, tick_adjust levels.short.target,
        compute_position_size total_capital (tick_adjust levels.short.entry)
          (tick_adjust levels.short.stop)⟩
    else none

/-- `attempt_place_orb_trade_for_symbol` after `compute_opening_range`
succeeded: derive levels, pick the preferred side from the market
direction, and run the two-slot side loop
`for side in (preferred, "LONG" if preferred != "LONG" else "SHORT")`
(a `None` slot is skipped; the first side that passes all gates wins). -/
def attempt_place_orb_trade_for_symbol (total_capital : ℚ) (orb : OrbResult)
    (market_dir : Option String) (q : Quote) : Option ActiveTrade :=
  match (if market_dir = some "UP" then some "LONG"
    else if market_dir = some "DOWN" then some "SHORT"
    else none : Option String) with
  | some p =>
    match try_side total_capital (determine_entry_levels orb) q p with
    | some t => some t
    | none => try_side total_capital (determine_entry_levels orb) q
        (if p = "LONG" then "SHORT" else "LONG")
  | none => try_side total_capital (determine_entry_levels orb) q "LONG"

-- --- The tick grid: the image of tick_adjust ---

/-- Prices produced by `tick_adjust`: integers up to 500 (tick 1 region,
plus the boundary value 500 itself), or multiples of 3 above 500 (tick 3
region).  Every stop stored on a program-created `ActiveTrade` lies on this
grid, because `attempt_place_orb_trade_for_symbol` tick-adjusts the initial
stop and `update_stop_trade` tick-adjusts every later one. -/
def tickGrid (s : ℚ) : Prop :=
  ∃ m : ℤ, s = (m : ℚ) ∧ (m ≤ 500 ∨ (3 ∣ m ∧ 500 < m))

theorem tick_adjust_of_lt {price : ℚ} (h : price < 500) :
    tick_adjust price = ((pyround price : ℤ) : ℚ) := by
  unfold tick_adjust
  rw [if_pos h]
  show pyround2 ((pyround (price / 1) : ℤ) * 1) = ((pyround price : ℤ) : ℚ)
  rw [div_one, mul_one, pyround2_intCast]

theorem tick_adjust_of_ge {price : ℚ} (h : ¬ price < 500) :
    tick_adjust price = ((3 * pyround (price / 3) : ℤ) : ℚ) := by
  unfold tick_adjust
  rw [if_neg h]
  show pyround2 ((pyround (price / 3) : ℤ) * 3)
      = ((3 * pyround (price / 3) : ℤ) : ℚ)
  have h3 : ((pyround (price / 3) : ℤ) : ℚ) * 3
      = ((3 * pyround (price / 3) : ℤ) : ℚ) := by push_cast; ring
  rw [h3, pyround2_intCast]

theorem tick_adjust_mem_tickGrid (x : ℚ) : tickGrid (tick_adjust x) := by
  by_cases h : x < 500
  · refine ⟨pyround x, tick_adjust_of_lt h, Or.inl ?_⟩
    have hc : ⌈x⌉ ≤ 500 := Int.ceil_le.mpr (by exact_mod_cast h.le)
    exact le_trans (pyround_le_ceil x) hc
  · refine ⟨3 * pyround (x / 3), tick_adjust_of_ge h, Or.inr ⟨⟨_, rfl⟩, ?_⟩⟩
    have hx : (500 : ℚ) ≤ x := not_lt.mp h
    have h166 : (166 : ℚ) + 1/2 < x / 3 := by linarith
    have := pyround_ge_of_half_lt 166 (x / 3) h166
    omega

/-- Ratchet safety for LONG: if the current stop lies on the tick grid and
the candidate stop strictly beats it (the guard of `update_stop_trade`'s
caller), then the tick-adjusted stored value still does not fall below the
current stop. -/
theorem le_tick_adjust_of_tickGrid {s ns : ℚ} (hs : tickGrid s)
    (h : s < ns) : s ≤ tick_adjust ns := by
  obtain ⟨m, rfl, hg⟩ := hs
  by_cases hlt : ns < 500
  · rw [tick_adjust_of_lt hlt]
    have hf : m ≤ ⌊ns⌋ := Int.le_floor.mpr h.le
    have := floor_le_pyround ns
    exact_mod_cast (by omega : m ≤ pyround ns)
  · rw [tick_adjust_of_ge hlt]
    have hns : (500 : ℚ) ≤ ns := not_lt.mp hlt
    rcases hg with hm | ⟨⟨j, rfl⟩, hmgt⟩
    · have h166 : (166 : ℚ) + 1/2 < ns / 3 := by linarith
      have := pyround_ge_of_half_lt 166 (ns / 3) h166
      exact_mod_cast (by omega : m ≤ 3 * pyround (ns / 3))
    · have hj : (j : ℚ) < ns / 3 := by
        have : ((3 * j : ℤ) : ℚ) < ns := h
        push_cast at this
        linarith
      have hf : j ≤ ⌊ns / 3⌋ := Int.le_floor.mpr hj.le
      have := floor_le_pyround (ns / 3)
      exact_mod_cast (by omega : 3 * j ≤ 3 * pyround (ns / 3))

/-- Ratchet safety for SHORT: a candidate stop strictly below a grid stop
tick-adjusts to a value still not above the current stop. -/
theorem tick_adjust_le_of_tickGrid {s ns : ℚ} (hs : tickGrid s)
    (h : ns < s) : tick_adjust ns ≤ s := by
  obtain ⟨m, rfl, hg⟩ := hs
  by_cases hlt : ns < 500
  · rw [tick_adjust_of_lt hlt]
    have hc : ⌈ns⌉ ≤ m := Int.ceil_le.mpr h.le
    have := pyround_le_ceil ns
    exact_mod_cast (by omega : pyround ns ≤ m)
  · rw [tick_adjust_of_ge hlt]
    have hns : (500 : ℚ) ≤ ns := not_lt.mp hlt
    rcases hg with hm | ⟨⟨j, rfl⟩, hmgt⟩
    · exfalso
      have : (m : ℚ) ≤ 500 := by exact_mod_cast hm
      linarith
    · have hj : ns / 3 < (j : ℚ) := by
        have : ns < ((3 * j : ℤ) : ℚ) := h
        push_cast at this
        linarith
      have hc : ⌈ns / 3⌉ ≤ j := Int.ceil_le.mpr hj.le
      have := pyround_le_ceil (ns / 3)
      exact_mod_cast (by omega : 3 * pyround (ns / 3) ≤ 3 * j)

theorem tick_adjust_intCast_of_lt {m : ℤ} (h : (m : ℚ) < 500) :
    tick_adjust (m : ℚ) = (m : ℚ) := by
  rw [tick_adjust_of_lt h, pyround_intCast]

theorem tick_adjust_intCast_of_dvd {m : ℤ} (h : ¬ (m : ℚ) < 500)
    (hd : 3 ∣ m) : tick_adjust (m : ℚ) = (m : ℚ) := by
  obtain ⟨j, rfl⟩ := hd
  rw [tick_adjust_of_ge h]
  have h3 : ((3 * j : ℤ) : ℚ) / 3 = (j : ℚ) := by push_cast; ring
  rw [h3, pyround_intCast]

-- --- Ratchet monotonicity ---

theorem lock_step_long_props (entry profit : ℚ) (t : ActiveTrade)
    (pair : ℚ × ℚ) (h : tickGrid t.stop_price) :
    tickGrid ((lock_step_long entry profit t pair).stop_price)
    ∧ t.stop_price ≤ (lock_step_long entry profit t pair).stop_price
    ∧ (lock_step_long entry profit t pair).side = t.side := by
  unfold lock_step_long update_stop_trade
  split_ifs with h1 h2
  · exact ⟨tick_adjust_mem_tickGrid _, le_tick_adjust_of_tickGrid h h2, rfl⟩
  · exact ⟨h, le_refl _, rfl⟩
  · exact ⟨h, le_refl _, rfl⟩

theorem lock_step_short_props (entry profit : ℚ) (t : ActiveTrade)
    (pair : ℚ × ℚ) (h : tickGrid t.stop_price) :
    tickGrid ((lock_step_short entry profit t pair).stop_price)
    ∧ (lock_step_short entry profit t pair).stop_price ≤ t.stop_price
    ∧ (lock_step_short entry profit t pair).side = t.side := by
  unfold lock_step_short update_stop_trade
  split_ifs with h1 h2
  · exact ⟨tick_adjust_mem_tickGrid _, tick_adjust_le_of_tickGrid h h2, rfl⟩
  · exact ⟨h, le_refl _, rfl⟩
  · exact ⟨h, le_refl _, rfl⟩

theorem foldl_lock_step_long (entry profit : ℚ) :
    ∀ (l : List (ℚ × ℚ)) (t : ActiveTrade), tickGrid t.stop_price →
      tickGrid ((l.foldl (lock_step_long entry profit) t).stop_price)
      ∧ t.stop_price ≤ (l.foldl (lock_step_long entry profit) t).stop_price
      ∧ (l.foldl (lock_step_long entry profit) t).side = t.side
  | [], _, h => ⟨h, le_refl _, rfl⟩
  | p :: ps, t, h => by
    rw [List.foldl_cons]
    obtain ⟨h1, h2, h3⟩ := lock_step_long_props entry profit t p h
    obtain ⟨g1, g2, g3⟩ := foldl_lock_step_long entry profit ps _ h1
    exact ⟨g1, le_trans h2 g2, g3.trans h3⟩

theorem foldl_lock_step_short (entry profit : ℚ) :
    ∀ (l : List (ℚ × ℚ)) (t : ActiveTrade), tickGrid t.stop_price →
      tickGrid ((l.foldl (lock_step_short entry profit) t).stop_price)
      ∧ (l.foldl (lock_step_short entry profit) t).stop_price ≤ t.stop_price
      ∧ (l.foldl (lock_step_short entry profit) t).side = t.side
  | [], _, h => ⟨h, le_refl _, rfl⟩
  | p :: ps, t, h => by
    rw [List.foldl_cons]
    obtain ⟨h1, h2, h3⟩ := lock_step_short_props entry profit t p h
    obtain ⟨g1, g2, g3⟩ := foldl_lock_step_short entry profit ps _ h1
    exact ⟨g1, le_trans g2 h2, g3.trans h3⟩

theorem check_progressive_lock_props (t : ActiveTrade) (p : ℚ)
    (h : tickGrid t.stop_price) :
    tickGrid ((check_progressive_lock t p).stop_price)
    ∧ (check_progressive_lock t p).side = t.side
    ∧ (t.side = "LONG" →
        t.stop_price ≤ (check_progressive_lock t p).stop_price)
    ∧ (t.side ≠ "LONG" →
        (check_progressive_lock t p).stop_price ≤ t.stop_price) := by
  unfold check_progressive_lock
  by_cases hs : t.side = "LONG"
  · rw [if_pos hs]
    obtain ⟨g1, g2, g3⟩ := foldl_lock_step_long t.entry_price
      (if t.entry_price > 0 then (p - t.entry_price) / t.entry_price else 0)
      PROGRESSIVE_LOCKS t h
    exact ⟨g1, g3, fun _ => g2, fun hn => absurd hs hn⟩
  · rw [if_neg hs]
    obtain ⟨g1, g2, g3⟩ := foldl_lock_step_short t.entry_price
      (if t.entry_price > 0 then (t.entry_price - p) / t.entry_price else 0)
      PROGRESSIVE_LOCKS t h
    exact ⟨g1, g3, fun hl => absurd hl hs, fun _ => g2⟩

theorem foldl_check_progressive_lock_props :
    ∀ (prices : List ℚ) (t : ActiveTrade), tickGrid t.stop_price →
      tickGrid ((prices.foldl check_progressive_lock t).stop_price)
      ∧ (prices.foldl check_progressive_lock t).side = t.side
      ∧ (t.side = "LONG" →
          t.stop_price ≤ (prices.foldl check_progressive_lock t).stop_price)
      ∧ (t.side ≠ "LONG" →
          (prices.foldl check_progressive_lock t).stop_price ≤ t.stop_price)
  | [], _, h => ⟨h, rfl, fun _ => le_refl _, fun _ => le_refl _⟩
  | p :: ps, t, h => by
    rw [List.foldl_cons]
    obtain ⟨h1, h2, h3, h4⟩ := check_progressive_lock_props t p h
    obtain ⟨g1, g2, g3, g4⟩ := foldl_check_progressive_lock_props ps _ h1
    refine ⟨g1, g2.trans h2, fun hl => ?_, fun hn => ?_⟩
    · exact le_trans (h3 hl) (g3 (h2 ▸ hl))
    · exact le_trans (g4 (h2 ▸ hn)) (h4 hn)

/-- Claim C1: for every `ActiveTrade` (whose stop, as for every trade the
program creates, lies on the tick grid) and every sequence of price
observations processed by `check_progressive_lock`, the stop is updated
only under the strict-improvement guard, so the stored `stop_price` —
including the `tick_adjust` rounding applied by `update_stop_trade` — is
monotonically non-decreasing for a LONG trade and non-increasing for a
SHORT trade. -/
theorem progressive_lock_stop_ratchet (t : ActiveTrade) (prices : List ℚ)
    (h : tickGrid t.stop_price) :
    (t.side = "LONG" →
      t.stop_price ≤ (prices.foldl check_progressive_lock t).stop_price)
    ∧ (t.side = "SHORT" →
      (prices.foldl check_progressive_lock t).stop_price ≤ t.stop_price) := by
  obtain ⟨_, _, h3, h4⟩ := foldl_check_progressive_lock_props prices t h
  exact ⟨h3, fun hs => h4 (by rw [hs]; decide)⟩

/-- Witness for C1 at a concrete LONG trade and price sequence. -/
theorem progressive_lock_stop_ratchet_witness :
    tickGrid ((⟨"LONG", 100, 99, 124, 10⟩ : ActiveTrade).stop_price)
    ∧ (99 : ℚ) ≤ (([150] : List ℚ).foldl check_progressive_lock
        ⟨"LONG", 100, 99, 124, 10⟩).stop_price := by
  have hg : tickGrid ((⟨"LONG", 100, 99, 124, 10⟩ : ActiveTrade).stop_price) :=
    ⟨99, by norm_num, Or.inl (by norm_num)⟩
  exact ⟨hg, (progressive_lock_stop_ratchet ⟨"LONG", 100, 99, 124, 10⟩
    [150] hg).1 rfl⟩

-- --- Tick rounding idempotence (C5) ---

/-- Claim C5 counterexample: `tick_adjust` is not idempotent at 499.5.
`tick_adjust 499.5 = 500` (tick 1, round-half-to-even), but re-adjusting
500 uses tick 3 and yields 501. -/
theorem tick_adjust_not_idempotent :
    tick_adjust (999/2) = 500
    ∧ tick_adjust (tick_adjust (999/2)) = 501
    ∧ tick_adjust (tick_adjust (999/2)) ≠ tick_adjust (999/2) := by
  have h1 : tick_adjust (999/2) = 500 := by
    norm_num [tick_adjust, pyround2, pyround]
  have h2 : tick_adjust (500 : ℚ) = 501 := by
    norm_num [tick_adjust, pyround2, pyround]
  refine ⟨h1, by rw [h1, h2], by rw [h1, h2]; norm_num⟩

/-- Claim C5 amended: `tick_adjust` is idempotent at every price whose
adjusted value is not exactly 500 (the only escape: inputs in
[499.5, 500) round to 500 with tick 1, and 500 re-rounds to 501 with
tick 3). -/
theorem tick_adjust_idempotent (x : ℚ) (h : tick_adjust x ≠ 500) :
    tick_adjust (tick_adjust x) = tick_adjust x := by
  obtain ⟨m, hm, hg⟩ := tick_adjust_mem_tickGrid x
  rw [hm] at h ⊢
  by_cases hlt : (m : ℚ) < 500
  · exact tick_adjust_intCast_of_lt hlt
  · rcases hg with hle | ⟨hd, _⟩
    · exfalso
      have h5 : (m : ℚ) ≤ 500 := by exact_mod_cast hle
      exact h (le_antisymm h5 (not_lt.mp hlt))
    · exact tick_adjust_intCast_of_dvd hlt hd

/-- Witness for the amended C5 at the concrete price 97.6. -/
theorem tick_adjust_idempotent_witness :
    tick_adjust (97.6 : ℚ) ≠ 500
    ∧ tick_adjust (tick_adjust (97.6 : ℚ)) = tick_adjust (97.6 : ℚ) := by
  have h : tick_adjust (97.6 : ℚ) = 98 := by
    norm_num [tick_adjust, pyround2, pyround]
  have hne : tick_adjust (97.6 : ℚ) ≠ 500 := by rw [h]; norm_num
  exact ⟨hne, tick_adjust_idempotent _ hne⟩

-- --- Golden entry-levels scenario (C2) ---

/-- Claim C2: `determine_entry_levels` on
`OpeningRangeStats{high=100, low=98, atr=1.0, range=2, volatility=0.01}`
with target multiplier 10 uses entry buffer 0.05 (volatility 1% > 0.5%)
and yields LONG entry 100.05, stop 98 − max(0.3, 0.4) = 97.6,
riskPerShare 2.45 and target 100.05 + 24.5 = 124.55. -/
theorem determine_entry_levels_golden :
    (determine_entry_levels ⟨100, 98, 2, 1, 1/100⟩).long
      = ⟨100.05, 97.6, 124.55, 2.45⟩ := by
  norm_num [determine_entry_levels, pyround2, pyround, TARGET_MULTIPLIER,
    max_def]

-- --- Position sizing (C7, C10) ---

theorem compute_position_size_eq_floor (capital e s : ℚ) (hc : 0 ≤ capital) :
    compute_position_size capital e s
      = ⌊capital * RISK_PER_TRADE / |e - s|⌋ := by
  unfold compute_position_size
  by_cases h : |e - s| ≤ 0
  · rw [if_pos h]
    have h0 : |e - s| = 0 := le_antisymm h (abs_nonneg _)
    rw [h0, div_zero, Int.floor_zero]
  · rw [if_neg h]
    have hnn : (0 : ℚ) ≤ capital * RISK_PER_TRADE / |e - s| :=
      div_nonneg (mul_nonneg hc (by norm_num [RISK_PER_TRADE])) (abs_nonneg _)
    exact max_eq_right (Int.floor_nonneg.mpr hnn)

/-- Claim C7: `compute_position_size` equals
`floor(totalCapital × riskFraction / |entry − stop|)`, returns 0 when
entry = stop, and is monotonically non-increasing in `|entry − stop|`
(on positive risk-per-share) for fixed capital and risk fraction. -/
theorem compute_position_size_spec (capital e s e' s' : ℚ)
    (hc : 0 ≤ capital) :
    compute_position_size capital e s = ⌊capital * RISK_PER_TRADE / |e - s|⌋
    ∧ compute_position_size capital e e = 0
    ∧ (0 < |e - s| → |e - s| ≤ |e' - s'| →
        compute_position_size capital e' s' ≤ compute_position_size capital e s) := by
  refine ⟨compute_position_size_eq_floor capital e s hc, ?_, ?_⟩
  · simp [compute_position_size]
  · intro hd hle
    rw [compute_position_size_eq_floor capital e s hc,
      compute_position_size_eq_floor capital e' s' hc]
    have hd' : 0 < |e' - s'| := lt_of_lt_of_le hd hle
    have hB : (0 : ℚ) ≤ capital * RISK_PER_TRADE :=
      mul_nonneg hc (by norm_num [RISK_PER_TRADE])
    have hdiv : capital * RISK_PER_TRADE / |e' - s'|
        ≤ capital * RISK_PER_TRADE / |e - s| := by gcongr
    exact Int.floor_le_floor hdiv

/-- Witness for C7 at concrete prices. -/
theorem compute_position_size_spec_witness :
    (0 : ℚ) ≤ 10000 ∧ (0 : ℚ) < |(100 : ℚ) - 98|
    ∧ compute_position_size 10000 100 90 ≤ compute_position_size 10000 100 98 := by
  refine ⟨by norm_num, by norm_num, ?_⟩
  exact (compute_position_size_spec 10000 100 98 100 90 (by norm_num)).2.2
    (by norm_num) (by norm_num)

/-- Claim C10: the computed quantity is a non-negative integer, and a
positive quantity never risks more than `TOTAL_CAPITAL × RISK_PER_TRADE`
monetary units: `qty × |entry − stop| ≤ capital × riskFraction`. -/
theorem compute_position_size_risk_budget (capital e s : ℚ) :
    0 ≤ compute_position_size capital e s
    ∧ (0 < compute_position_size capital e s →
        (compute_position_size capital e s : ℚ) * |e - s|
          ≤ capital * RISK_PER_TRADE) := by
  unfold compute_position_size
  by_cases h : |e - s| ≤ 0
  · rw [if_pos h]
    exact ⟨le_refl 0, fun hp => absurd hp (lt_irrefl 0)⟩
  · rw [if_neg h]
    have hpos : (0 : ℚ) < |e - s| := not_le.mp h
    refine ⟨le_max_left 0 _, fun hp => ?_⟩
    have hf : 0 < ⌊capital * RISK_PER_TRADE / |e - s|⌋ := by
      by_contra hcon
      push_neg at hcon
      rw [max_eq_left hcon] at hp
      exact lt_irrefl 0 hp
    rw [max_eq_right hf.le]
    have hfle : (⌊capital * RISK_PER_TRADE / |e - s|⌋ : ℚ)
        ≤ capital * RISK_PER_TRADE / |e - s| := Int.floor_le _
    exact (le_div_iff₀ hpos).mp hfle

/-- Witness for C10: with capital 10000, entry 100 and stop 99 the size is
positive and the risk bound holds there. -/
theorem compute_position_size_risk_budget_witness :
    0 < compute_position_size 10000 100 99
    ∧ (compute_position_size 10000 100 99 : ℚ) * |(100 : ℚ) - 99|
        ≤ 10000 * RISK_PER_TRADE := by
  have h : 0 < compute_position_size 10000 100 99 := by
    norm_num [compute_position_size, RISK_PER_TRADE, max_def]
  exact ⟨h, (compute_position_size_risk_budget 10000 100 99).2 h⟩

-- --- The actual lock table and the golden ratchet scenario (C3) ---

theorem round4_range_eval (i : ℕ) :
    round4 ((40 + 20 * (i : ℚ)) / 100) = (40 + 20 * (i : ℚ)) / 100 := by
  unfold round4
  have h : (10000 : ℚ) * ((40 + 20 * (i : ℚ)) / 100)
      = ((4000 + 2000 * (i : ℤ) : ℤ) : ℚ) := by push_cast; ring
  rw [h, pyround_intCast]
  push_cast
  ring

/-- Every threshold in the lock table the code actually builds is at least
0.4 (40% profit), because `range(40, 1001, 20)` is divided by 100, not
10000 as the inline comment (`# 0.004,0.006,...,0.10`) intends. -/
theorem PROGRESSIVE_LOCKS_threshold_ge (pair : ℚ × ℚ)
    (h : pair ∈ PROGRESSIVE_LOCKS) : (2 : ℚ)/5 ≤ pair.1 := by
  unfold PROGRESSIVE_LOCKS at h
  obtain ⟨thr, hthr, hpair⟩ := List.mem_map.mp h
  unfold PROGRESSIVE_THRESHOLDS at hthr
  obtain ⟨i, _, hthr'⟩ := List.mem_map.mp hthr
  have h1 : pair.1 = thr := by rw [← hpair]
  rw [h1, ← hthr', round4_range_eval i]
  have hi : (0 : ℚ) ≤ (i : ℚ) := Nat.cast_nonneg i
  linarith

theorem foldl_lock_step_long_noop (entry profit : ℚ) :
    ∀ (l : List (ℚ × ℚ)) (t : ActiveTrade),
      (∀ pair ∈ l, profit < pair.1) →
      List.foldl (lock_step_long entry profit) t l = t
  | [], _, _ => rfl
  | p :: ps, t, h => by
    rw [List.foldl_cons]
    have hstep : lock_step_long entry profit t p = t := by
      unfold lock_step_long
      rw [if_neg (not_le.mpr (h p (List.mem_cons_self p ps)))]
    rw [hstep]
    exact foldl_lock_step_long_noop entry profit ps t
      (fun q hq => h q (List.mem_cons_of_mem p hq))

theorem check_progressive_lock_noop_long (t : ActiveTrade) (p : ℚ)
    (hside : t.side = "LONG")
    (hsmall : (if t.entry_price > 0 then (p - t.entry_price) / t.entry_price
        else 0) < 2/5) :
    check_progressive_lock t p = t := by
  unfold check_progressive_lock
  rw [if_pos hside]
  exact foldl_lock_step_long_noop _ _ PROGRESSIVE_LOCKS t
    (fun pair hmem =>
      lt_of_lt_of_le hsmall (PROGRESSIVE_LOCKS_threshold_ge pair hmem))

/-- Claim C3 counterexample: for a LONG trade with entry 100 and stop 99,
a price observation of 100.5 (profit 0.5%) leaves the stop at 99 — it does
not ratchet to 100.4, because the code's lock table has no threshold below
0.4 (40%). -/
theorem progressive_lock_golden_counterexample :
    (check_progressive_lock ⟨"LONG", 100, 99, 124.55, 10⟩ 100.5).stop_price
      = 99
    ∧ ((0.004 : ℚ), (0.002 : ℚ)) ∉ PROGRESSIVE_LOCKS
    ∧ ((99 : ℚ) ≠ 100.4) := by
  refine ⟨?_, ?_, by norm_num⟩
  · rw [check_progressive_lock_noop_long _ _ rfl (by norm_num)]
  · intro hmem
    have := PROGRESSIVE_LOCKS_threshold_ge _ hmem
    norm_num at this

/-- Claim C3 amended: under the lock table the code actually builds
(thresholds 0.4, 0.6, …, 10.0 — all ≥ 40% profit — instead of the
0.004/0.006 the comment intends), a LONG trade with entry 100 and stop 99
observing 100.5 passes no threshold, so the monitor leaves the trade open
with its stop unchanged at 99; the later observation 100.3 likewise
triggers neither a stop exit (100.3 > 99) nor any ratchet. -/
theorem progressive_lock_golden_amended :
    (∀ pair ∈ PROGRESSIVE_LOCKS, (2 : ℚ)/5 ≤ pair.1)
    ∧ monitor_step ⟨"LONG", 100, 99, 124.55, 10⟩ 100.5
        = (none, ⟨"LONG", 100, 99, 124.55, 10⟩)
    ∧ monitor_step ⟨"LONG", 100, 99, 124.55, 10⟩ 100.3
        = (none, ⟨"LONG", 100, 99, 124.55, 10⟩) := by
  refine ⟨PROGRESSIVE_LOCKS_threshold_ge, ?_, ?_⟩
  · unfold monitor_step
    rw [if_pos rfl, if_neg (by norm_num), if_neg (by norm_num),
      check_progressive_lock_noop_long _ _ rfl (by norm_num)]
  · unfold monitor_step
    rw [if_pos rfl, if_neg (by norm_num), if_neg (by norm_num),
      check_progressive_lock_noop_long _ _ rfl (by norm_num)]

-- --- Folded max/min over bar lists ---

theorem foldl_max_le_self (f : Bar → ℚ) :
    ∀ (l : List Bar) (a : ℚ), a ≤ l.foldl (fun x c => max x (f c)) a
  | [], a => le_refl a
  | b :: bs, a => by
    rw [List.foldl_cons]
    exact le_trans (le_max_left a (f b)) (foldl_max_le_self f bs _)

theorem le_foldl_max (f : Bar → ℚ) :
    ∀ (l : List Bar) (a : ℚ) (b : Bar), b ∈ l →
      f b ≤ l.foldl (fun x c => max x (f c)) a
  | b' :: bs, a, b, hmem => by
    rw [List.foldl_cons]
    rcases List.mem_cons.mp hmem with h | h
    · subst h
      exact le_trans (le_max_right a (f b)) (foldl_max_le_self f bs _)
    · exact le_foldl_max f bs _ b h

theorem foldl_max_mem (f : Bar → ℚ) :
    ∀ (l : List Bar) (a : ℚ),
      l.foldl (fun x c => max x (f c)) a = a
      ∨ ∃ b ∈ l, l.foldl (fun x c => max x (f c)) a = f b
  | [], _ => Or.inl rfl
  | b :: bs, a => by
    rw [List.foldl_cons]
    rcases foldl_max_mem f bs (max a (f b)) with h | ⟨b', hb', h⟩
    · rcases max_choice a (f b) with hm | hm
      · exact Or.inl (h.trans hm)
      · exact Or.inr ⟨b, List.mem_cons_self b bs, h.trans hm⟩
    · exact Or.inr ⟨b', List.mem_cons_of_mem b hb', h⟩

theorem foldl_min_le_self (f : Bar → ℚ) :
    ∀ (l : List Bar) (a : ℚ), l.foldl (fun x c => min x (f c)) a ≤ a
  | [], a => le_refl a
  | b :: bs, a => by
    rw [List.foldl_cons]
    exact le_trans (foldl_min_le_self f bs _) (min_le_left a (f b))

theorem foldl_min_le (f : Bar → ℚ) :
    ∀ (l : List Bar) (a : ℚ) (b : Bar), b ∈ l →
      l.foldl (fun x c => min x (f c)) a ≤ f b
  | b' :: bs, a, b, hmem => by
    rw [List.foldl_cons]
    rcases List.mem_cons.mp hmem with h | h
    · subst h
      exact le_trans (foldl_min_le_self f bs _) (min_le_right a (f b))
    · exact foldl_min_le f bs _ b h

theorem foldl_min_mem (f : Bar → ℚ) :
    ∀ (l : List Bar) (a : ℚ),
      l.foldl (fun x c => min x (f c)) a = a
      ∨ ∃ b ∈ l, l.foldl (fun x c => min x (f c)) a = f b
  | [], _ => Or.inl rfl
  | b :: bs, a => by
    rw [List.foldl_cons]
    rcases foldl_min_mem f bs (min a (f b)) with h | ⟨b', hb', h⟩
    · rcases min_choice a (f b) with hm | hm
      · exact Or.inl (h.trans hm)
      · exact Or.inr ⟨b, List.mem_cons_self b bs, h.trans hm⟩
    · exact Or.inr ⟨b', List.mem_cons_of_mem b hb', h⟩

-- --- Opening-range volatility (C6) ---

/-- Claim C6 counterexample: on a two-bar opening subset whose first bar
opens at 100 and last bar opens at 50 (max single-bar range 2), the code
computes volatility 2/50, not 2/100 — the divisor is the LAST bar's open
(`orb_df['open'].iloc[-1]`), not the first bar's. -/
theorem opening_range_volatility_counterexample :
    (compute_opening_range
        [⟨100, 101, 100, 100, 0⟩, ⟨50, 52, 50, 50, 0⟩] 0).map
      OrbResult.volatility = some (1/25)
    ∧ ((1 : ℚ)/25 ≠ 2/100) := by
  constructor
  · norm_num [compute_opening_range, List.getLast, max_def, min_def]
  · norm_num

set_option maxHeartbeats 1000000 in
/-- Claim C6 amended: for every non-empty opening-window bar subset,
`compute_opening_range` sets volatility to the maximum single-bar
(high − low) range divided by the subset's LAST bar's open price (the
source's `iloc[-1]`), and 0 when that open price is 0. -/
theorem compute_opening_range_volatility (l : List Bar) (atr_val : ℚ)
    (h : l ≠ []) :
    ∃ r m, compute_opening_range l atr_val = some r
      ∧ (∀ b ∈ l, b.high - b.low ≤ m)
      ∧ (∃ b ∈ l, b.high - b.low = m)
      ∧ r.volatility =
          (if (l.getLast h).open_ ≠ 0 then m / (l.getLast h).open_ else 0) := by
  cases l with
  | nil => exact absurd rfl h
  | cons b bs =>
    refine ⟨_, bs.foldl (fun a c => max a (c.high - c.low)) (b.high - b.low),
      rfl, ?_, ?_, rfl⟩
    · intro x hx
      rcases List.mem_cons.mp hx with hx' | hx'
      · subst hx'
        exact foldl_max_le_self (fun c => c.high - c.low) bs _
      · exact le_foldl_max (fun c => c.high - c.low) bs _ x hx'
    · rcases foldl_max_mem (fun c => c.high - c.low) bs (b.high - b.low)
        with hm | ⟨b', hb', hm⟩
      · exact ⟨b, List.mem_cons_self b bs, hm.symm⟩
      · exact ⟨b', List.mem_cons_of_mem b hb', hm.symm⟩

/-- Witness for the amended C6 on a concrete one-bar subset. -/
theorem compute_opening_range_volatility_witness :
    ∃ r m, compute_opening_range [⟨100, 102, 99, 101, 0⟩] 1 = some r
      ∧ (∀ b ∈ [(⟨100, 102, 99, 101, 0⟩ : Bar)], b.high - b.low ≤ m)
      ∧ (∃ b ∈ [(⟨100, 102, 99, 101, 0⟩ : Bar)], b.high - b.low = m)
      ∧ r.volatility =
          (if (([(⟨100, 102, 99, 101, 0⟩ : Bar)]).getLast
                (List.cons_ne_nil _ _)).open_ ≠ 0
            then m / (([(⟨100, 102, 99, 101, 0⟩ : Bar)]).getLast
                (List.cons_ne_nil _ _)).open_
            else 0) :=
  compute_opening_range_volatility [⟨100, 102, 99, 101, 0⟩] 1
    (List.cons_ne_nil _ _)

-- --- Symbol scoring (C8) ---

theorem foldl_add_volume :
    ∀ (l : List Bar) (a : ℚ),
      l.foldl (fun x c => x + c.volume) a = a + (l.map Bar.volume).sum
  | [], a => by simp
  | b :: bs, a => by
    rw [List.foldl_cons, foldl_add_volume bs, List.map_cons, List.sum_cons]
    ring

/-- Claim C8 counterexample: the second candidate of the spec's selection
scenario scores 0.01·0.5 + 0.05·0.3 + 3·0.2 = 0.62, not the 0.635 the
claim states. -/
theorem composite_score_counterexample :
    composite_score (2/100) (3/100) 1 = 219/1000
    ∧ composite_score (1/100) (5/100) 3 = 62/100
    ∧ composite_score (1/100) (5/100) 3 ≠ 635/1000 := by
  refine ⟨by norm_num [composite_score], by norm_num [composite_score],
    by norm_num [composite_score]⟩

set_option maxHeartbeats 1000000 in
/-- Claim C8 amended: for every instrument with a non-empty opening-window
bar subset the scorer computes momentum = (lastClose − firstOpen)/firstOpen,
volatility = (maxHigh − minLow)/firstOpen,
volumeScore = min(sumVolume/minVolumeThreshold, 3), and composite =
momentum·0.5 + volatility·0.3 + volumeScore·0.2; instruments with no
opening-window data are excluded (`none`), not scored as zero.  The two
scenario candidates score 0.219 and 0.62 (not 0.635), so the second is
still ranked first. -/
theorem symbol_score_formula (l : List Bar) (h : l ≠ []) :
    symbol_score [] = none
    ∧ (∃ hi lo,
        (∀ b ∈ l, b.high ≤ hi) ∧ (∃ b ∈ l, b.high = hi)
        ∧ (∀ b ∈ l, lo ≤ b.low) ∧ (∃ b ∈ l, b.low = lo)
        ∧ symbol_score l = some (composite_score
            (((l.getLast h).close - (l.head h).open_) / (l.head h).open_)
            ((hi - lo) / (l.head h).open_)
            (min ((l.map Bar.volume).sum / MIN_VOLUME_THRESHOLD) 3)))
    ∧ composite_score (2/100) (3/100) 1 = 219/1000
    ∧ composite_score (1/100) (5/100) 3 = 62/100
    ∧ pySortDesc [("CANDIDATE1", composite_score (2/100) (3/100) 1),
          ("CANDIDATE2", composite_score (1/100) (5/100) 3)]
        = [("CANDIDATE2", 62/100), ("CANDIDATE1", 219/1000)] := by
  refine ⟨rfl, ?_, by norm_num [composite_score], by norm_num [composite_score],
    by norm_num [composite_score, pySortDesc, insert_desc]⟩
  cases l with
  | nil => exact absurd rfl h
  | cons b bs =>
    refine ⟨bs.foldl (fun a c => max a c.high) b.high,
      bs.foldl (fun a c => min a c.low) b.low, ?_, ?_, ?_, ?_, ?_⟩
    · intro x hx
      rcases List.mem_cons.mp hx with hx' | hx'
      · subst hx'
        exact foldl_max_le_self Bar.high bs _
      · exact le_foldl_max Bar.high bs _ x hx'
    · rcases foldl_max_mem Bar.high bs b.high with hm | ⟨b', hb', hm⟩
      · exact ⟨b, List.mem_cons_self b bs, hm.symm⟩
      · exact ⟨b', List.mem_cons_of_mem b hb', hm.symm⟩
    · intro x hx
      rcases List.mem_cons.mp hx with hx' | hx'
      · subst hx'
        exact foldl_min_le_self Bar.low bs _
      · exact foldl_min_le Bar.low bs _ x hx'
    · rcases foldl_min_mem Bar.low bs b.low with hm | ⟨b', hb', hm⟩
      · exact ⟨b, List.mem_cons_self b bs, hm.symm⟩
      · exact ⟨b', List.mem_cons_of_mem b hb', hm.symm⟩
    · show some _ = some _
      have hv : (b :: bs).foldl (fun x c => x + c.volume) 0
          = ((b :: bs).map Bar.volume).sum := by
        rw [foldl_add_volume]
        ring
      rw [hv]
      rfl

/-- A concrete bar used to instantiate the scoring formula theorem. -/
def bar1 : Bar := ⟨100, 102, 99, 101, 5000⟩

/-- Witness for the amended C8 on a concrete one-bar subset. -/
theorem symbol_score_formula_witness :
    symbol_score [] = none
    ∧ (∃ hi lo,
        (∀ b ∈ [bar1], b.high ≤ hi) ∧ (∃ b ∈ [bar1], b.high = hi)
        ∧ (∀ b ∈ [bar1], lo ≤ b.low) ∧ (∃ b ∈ [bar1], b.low = lo)
        ∧ symbol_score [bar1] = some (composite_score
            ((([bar1].getLast (List.cons_ne_nil bar1 [])).close
              - ([bar1].head (List.cons_ne_nil bar1 [])).open_)
              / ([bar1].head (List.cons_ne_nil bar1 [])).open_)
            ((hi - lo) / ([bar1].head (List.cons_ne_nil bar1 [])).open_)
            (min (([bar1].map Bar.volume).sum / MIN_VOLUME_THRESHOLD) 3)))
    ∧ composite_score (2/100) (3/100) 1 = 219/1000
    ∧ composite_score (1/100) (5/100) 3 = 62/100
    ∧ pySortDesc [("CANDIDATE1", composite_score (2/100) (3/100) 1),
          ("CANDIDATE2", composite_score (1/100) (5/100) 3)]
        = [("CANDIDATE2", 62/100), ("CANDIDATE1", 219/1000)] :=
  symbol_score_formula [bar1] (List.cons_ne_nil bar1 [])

-- --- Selection ordering (C9) ---

theorem insert_desc_perm (x : String × ℚ) :
    ∀ l, (insert_desc x l).Perm (x :: l)
  | [] => List.Perm.refl _
  | y :: ys => by
    unfold insert_desc
    by_cases hcmp : y.2 ≤ x.2
    · rw [if_pos hcmp]
    · rw [if_neg hcmp]
      exact ((insert_desc_perm x ys).cons y).trans (List.Perm.swap x y ys)

theorem pySortDesc_perm : ∀ l, (pySortDesc l).Perm l
  | [] => List.Perm.refl _
  | x :: xs => by
    show (insert_desc x (pySortDesc xs)).Perm (x :: xs)
    exact (insert_desc_perm x (pySortDesc xs)).trans
      ((pySortDesc_perm xs).cons x)

theorem insert_desc_pairwise (x : String × ℚ) :
    ∀ l, l.Pairwise (fun a b => b.2 ≤ a.2) →
      (insert_desc x l).Pairwise (fun a b => b.2 ≤ a.2)
  | [], _ => by simp [insert_desc]
  | y :: ys, hp => by
    unfold insert_desc
    obtain ⟨hy, hys⟩ := List.pairwise_cons.mp hp
    by_cases hcmp : y.2 ≤ x.2
    · rw [if_pos hcmp]
      refine List.Pairwise.cons ?_ hp
      intro z hz
      rcases List.mem_cons.mp hz with hz' | hz'
      · subst hz'
        exact hcmp
      · exact le_trans (hy z hz') hcmp
    · rw [if_neg hcmp]
      refine List.Pairwise.cons ?_ (insert_desc_pairwise x ys hys)
      intro z hz
      have hz' : z ∈ x :: ys := (insert_desc_perm x ys).mem_iff.mp hz
      rcases List.mem_cons.mp hz' with hz'' | hz''
      · subst hz''
        exact le_of_not_le hcmp
      · exact hy z hz''

theorem pySortDesc_pairwise :
    ∀ l, (pySortDesc l).Pairwise (fun a b => b.2 ≤ a.2)
  | [] => List.Pairwise.nil
  | x :: xs => insert_desc_pairwise x (pySortDesc xs) (pySortDesc_pairwise xs)

theorem filter_insert_desc_of_eq (x : String × ℚ) (s : ℚ) (hx : x.2 = s) :
    ∀ l, (insert_desc x l).filter (fun e => decide (e.2 = s))
      = x :: l.filter (fun e => decide (e.2 = s))
  | [] => by simp [insert_desc, hx]
  | y :: ys => by
    unfold insert_desc
    by_cases hcmp : y.2 ≤ x.2
    · rw [if_pos hcmp]
      simp [List.filter_cons, hx]
    · rw [if_neg hcmp]
      have hy : ¬ (y.2 = s) := by
        intro he
        exact hcmp (le_of_eq (he.trans hx.symm))
      simp [List.filter_cons, hy, filter_insert_desc_of_eq x s hx ys]

theorem filter_insert_desc_of_ne (x : String × ℚ) (s : ℚ) (hx : ¬ x.2 = s) :
    ∀ l, (insert_desc x l).filter (fun e => decide (e.2 = s))
      = l.filter (fun e => decide (e.2 = s))
  | [] => by simp [insert_desc, hx]
  | y :: ys => by
    unfold insert_desc
    by_cases hcmp : y.2 ≤ x.2
    · rw [if_pos hcmp]
      simp [List.filter_cons, hx]
    · rw [if_neg hcmp]
      by_cases hy : y.2 = s
      · simp [List.filter_cons, hy, filter_insert_desc_of_ne x s hx ys]
      · simp [List.filter_cons, hy, filter_insert_desc_of_ne x s hx ys]

theorem pySortDesc_filter_eq (s : ℚ) :
    ∀ l, (pySortDesc l).filter (fun e => decide (e.2 = s))
      = l.filter (fun e => decide (e.2 = s))
  | [] => rfl
  | x :: xs => by
    show (insert_desc x (pySortDesc xs)).filter _ = _
    by_cases hx : x.2 = s
    · rw [filter_insert_desc_of_eq x s hx (pySortDesc xs),
        pySortDesc_filter_eq s xs]
      simp [List.filter_cons, hx]
    · rw [filter_insert_desc_of_ne x s hx (pySortDesc xs),
        pySortDesc_filter_eq s xs]
      simp [List.filter_cons, hx]

/-- Claim C9 amended: the selector returns the top-2 instruments by
composite score descending, but ties are broken by position in the
`SYMBOLS` universe list (Python's `sorted` is stable), not by instrument
id ascending: the sorted score list is a permutation of the input, is
pairwise descending in score, and preserves the input's relative order
within every equal-score class. -/
theorem select_stocks_sorted_stable (l : List (String × ℚ))
    (data : String → List Bar) :
    (pySortDesc l).Perm l
    ∧ (pySortDesc l).Pairwise (fun a b => b.2 ≤ a.2)
    ∧ (∀ s : ℚ, (pySortDesc l).filter (fun e => decide (e.2 = s))
        = l.filter (fun e => decide (e.2 = s)))
    ∧ select_stocks_from_universe data
        = ((pySortDesc (SYMBOLS.filterMap (fun sym =>
            (symbol_score (data sym)).map (fun sc => (sym, sc))))).take 2).map
          Prod.fst :=
  ⟨pySortDesc_perm l, pySortDesc_pairwise l,
    fun s => pySortDesc_filter_eq s l, rfl⟩

set_option maxHeartbeats 2000000 in
/-- Claim C9 counterexample: give `BAJFINANCE` and `BAJAJFINSV` (listed in
that order in `SYMBOLS`, which is not alphabetical) identical opening bars,
so both score 0.6.  The selector returns `BAJFINANCE` first even though
`BAJAJFINSV` is the smaller instrument id — ties are not broken by id
ascending. -/
theorem select_stocks_tie_counterexample :
    select_stocks_from_universe (fun sym =>
        if sym = "BAJFINANCE" ∨ sym = "BAJAJFINSV"
        then [⟨100, 100, 100, 100, 15000⟩] else [])
      = ["BAJFINANCE", "BAJAJFINSV"]
    ∧ symbol_score [(⟨100, 100, 100, 100, 15000⟩ : Bar)] = some (3/5)
    ∧ ("BAJAJFINSV" : String) < "BAJFINANCE" := by
  have hnil : symbol_score ([] : List Bar) = none := rfl
  have hb : symbol_score [(⟨100, 100, 100, 100, 15000⟩ : Bar)]
      = some (3/5) := by
    norm_num [symbol_score, composite_score, MIN_VOLUME_THRESHOLD,
      List.getLast, min_def]
  refine ⟨?_, hb, String.lt_iff_toList_lt.mpr (by decide)⟩
  simp [select_stocks_from_universe, SYMBOLS, hnil, hb, pySortDesc,
    insert_desc]

-- --- Entry ordering invariant (C4) ---

theorem try_side_long (capital : ℚ) (levels : Levels) (q : Quote)
    (t : ActiveTrade) (h : try_side capital levels q "LONG" = some t) :
    t.side = "LONG" ∧ levels.long.stop < levels.long.entry
    ∧ levels.long.entry < levels.long.target := by
  unfold try_side at h
  rw [if_pos rfl] at h
  split_ifs at h with h1 h2 h3
  all_goals
    first
      | exact Option.noConfusion h
      | (obtain rfl := Option.some.inj h; exact ⟨rfl, h1.1, h1.2⟩)

theorem try_side_short (capital : ℚ) (levels : Levels) (q : Quote)
    (t : ActiveTrade) (h : try_side capital levels q "SHORT" = some t) :
    t.side = "SHORT" ∧ levels.short.target < levels.short.entry
    ∧ levels.short.entry < levels.short.stop := by
  unfold try_side at h
  rw [if_neg (by simp)] at h
  split_ifs at h with h1 h2 h3
  all_goals
    first
      | exact Option.noConfusion h
      | (obtain rfl := Option.some.inj h; exact ⟨rfl, h1.1, h1.2⟩)

theorem attempt_place_cases (capital : ℚ) (orb : OrbResult)
    (md : Option String) (q : Quote) (t : ActiveTrade)
    (h : attempt_place_orb_trade_for_symbol capital orb md q = some t) :
    try_side capital (determine_entry_levels orb) q "LONG" = some t
    ∨ try_side capital (determine_entry_levels orb) q "SHORT" = some t := by
  unfold attempt_place_orb_trade_for_symbol at h
  split at h
  · rename_i p heq
    have hp : p = "LONG" ∨ p = "SHORT" := by
      split at heq
      · exact Or.inl (Option.some.inj heq).symm
      · split at heq
        · exact Or.inr (Option.some.inj heq).symm
        · exact absurd heq (by simp)
    split at h
    · rename_i t0 hts
      obtain rfl := Option.some.inj h
      rcases hp with rfl | rfl
      · exact Or.inl hts
      · exact Or.inr hts
    · rcases hp with rfl | rfl
      · rw [if_pos rfl] at h
        exact Or.inr h
      · rw [if_neg (by simp)] at h
        exact Or.inl h
  · exact Or.inl h

/-- Claim C4: whenever `attempt_place_orb_trade_for_symbol` places a trade,
that trade's side passed its ordering-invariant gate on the derived levels:
LONG requires stop < entry < target, SHORT requires
target < entry < stop; a side failing the gate is `continue`d past (never
offered to the position sizer), so only the other side or no trade
results. -/
theorem attempt_place_ordering (capital : ℚ) (orb : OrbResult)
    (md : Option String) (q : Quote) (t : ActiveTrade)
    (h : attempt_place_orb_trade_for_symbol capital orb md q = some t) :
    (t.side = "LONG" ∨ t.side = "SHORT")
    ∧ (t.side = "LONG" →
        (determine_entry_levels orb).long.stop
          < (determine_entry_levels orb).long.entry
        ∧ (determine_entry_levels orb).long.entry
          < (determine_entry_levels orb).long.target)
    ∧ (t.side = "SHORT" →
        (determine_entry_levels orb).short.target
          < (determine_entry_levels orb).short.entry
        ∧ (determine_entry_levels orb).short.entry
          < (determine_entry_levels orb).short.stop) := by
  rcases attempt_place_cases capital orb md q t h with hl | hs
  · obtain ⟨hside, ho1, ho2⟩ := try_side_long capital _ q t hl
    refine ⟨Or.inl hside, fun _ => ⟨ho1, ho2⟩, fun hshort => ?_⟩
    rw [hside] at hshort
    exact absurd hshort (by simp)
  · obtain ⟨hside, ho1, ho2⟩ := try_side_short capital _ q t hs
    refine ⟨Or.inr hside, fun hlong => ?_, fun _ => ⟨ho1, ho2⟩⟩
    rw [hside] at hlong
    exact absurd hlong (by simp)

/-- Witness for C4: a concrete run that places a LONG trade, whose derived
levels therefore satisfy the ordering invariant. -/
theorem attempt_place_ordering_witness :
    attempt_place_orb_trade_for_symbol 10000 ⟨100, 98, 2, 1, 1/100⟩
        (some "UP") ⟨0⟩ = some ⟨"LONG", 100, 98, 125, 50⟩
    ∧ ((determine_entry_levels ⟨100, 98, 2, 1, 1/100⟩).long.stop
        < (determine_entry_levels ⟨100, 98, 2, 1, 1/100⟩).long.entry
      ∧ (determine_entry_levels ⟨100, 98, 2, 1, 1/100⟩).long.entry
        < (determine_entry_levels ⟨100, 98, 2, 1, 1/100⟩).long.target) := by
  have h : attempt_place_orb_trade_for_symbol 10000 ⟨100, 98, 2, 1, 1/100⟩
      (some "UP") ⟨0⟩ = some ⟨"LONG", 100, 98, 125, 50⟩ := by
    norm_num [attempt_place_orb_trade_for_symbol, try_side,
      determine_entry_levels, compute_position_size, tick_adjust, pyround,
      pyround2, TARGET_MULTIPLIER, RISK_PER_TRADE, MIN_VOLUME_THRESHOLD,
      max_def]
  exact ⟨h, (attempt_place_ordering 10000 ⟨100, 98, 2, 1, 1/100⟩
    (some "UP") ⟨0⟩ ⟨"LONG", 100, 98, 125, 50⟩ h).2.1 rfl⟩

end Orb
